import Mathlib

/-!
Shallow embedding of the logan-logger core (src/core/types.ts, src/core/logger.ts,
src/core/factory.ts, src/runtime/node.ts, src/runtime/browser.ts,
src/utils/runtime.ts, src/utils/serialization.ts, src/utils/formatting.ts)
together with theorems settling the spec claims about it.
-/

namespace Logan

/-- Log levels in ascending order of severity (src/core/types.ts, enum LogLevel:
DEBUG=0, INFO=1, WARN=2, ERROR=3, SILENT=4). -/
inductive LogLevel where
  | debug
  | info
  | warn
  | error
  | silent
deriving DecidableEq, Repr

/-- Numeric value of the TypeScript enum member. -/
def LogLevel.toNat : LogLevel → Nat
  | .debug => 0
  | .info => 1
  | .warn => 2
  | .error => 3
  | .silent => 4

/-- Reverse enum mapping: the string `LogLevel[level]` in TypeScript. -/
def LogLevel.name : LogLevel → String
  | .debug => "DEBUG"
  | .info => "INFO"
  | .warn => "WARN"
  | .error => "ERROR"
  | .silent => "SILENT"

/-- Supported runtime environments (src/core/types.ts, type RuntimeName). -/
inductive RuntimeName where
  | node
  | deno
  | bun
  | browser
  | webworker
  | unknown
deriving DecidableEq, Repr

/-- The string value of a RuntimeName. -/
def RuntimeName.toStr : RuntimeName → String
  | .node => "node"
  | .deno => "deno"
  | .bun => "bun"
  | .browser => "browser"
  | .webworker => "webworker"
  | .unknown => "unknown"

/-- Capabilities a runtime may support (src/core/types.ts, RuntimeCapabilities). -/
structure RuntimeCapabilities where
  fileSystem : Bool
  colorSupport : Bool
  processInfo : Bool
  streams : Bool
deriving DecidableEq, Repr

/-- Capability lookup table (src/utils/runtime.ts, getRuntimeCapabilities). -/
def getRuntimeCapabilities : RuntimeName → RuntimeCapabilities
  | .node => { fileSystem := true, colorSupport := true, processInfo := true, streams := true }
  | .deno => { fileSystem := true, colorSupport := true, processInfo := true, streams := true }
  | .bun => { fileSystem := true, colorSupport := true, processInfo := true, streams := true }
  | .browser =>
      { fileSystem := false, colorSupport := true, processInfo := false, streams := false }
  | .webworker =>
      { fileSystem := false, colorSupport := false, processInfo := false, streams := false }
  | .unknown =>
      { fileSystem := false, colorSupport := false, processInfo := false, streams := false }

/-- Which concrete logger class `LoggerFactory.create` instantiates.
`nodeLogger` is the backend-integrated adapter (NodeLogger, src/runtime/node.ts);
`browserLogger` is the console adapter (BrowserLogger, src/runtime/browser.ts). -/
inductive AdapterKind where
  | nodeLogger
  | browserLogger
deriving DecidableEq, Repr

/-- Adapter selection of LoggerFactory.create (src/core/factory.ts), as a function of
the detected runtime name. The source switches on `runtime.name`: node uses NodeLogger,
deno uses BrowserLogger (a TODO in the source), bun uses NodeLogger, browser and
webworker use BrowserLogger, and the default branch falls back to BrowserLogger. -/
def LoggerFactory.create : RuntimeName → AdapterKind
  | .node => .nodeLogger
  | .deno => .browserLogger
  | .bun => .nodeLogger
  | .browser => .browserLogger
  | .webworker => .browserLogger
  | .unknown => .browserLogger

/-- JavaScript number as far as JSON serialization is concerned: an integer, or one of
the non-finite values which `JSON.stringify` renders as `null`. -/
inductive JsNum where
  | int (i : Int)
  | nan
  | posInf
  | negInf
deriving DecidableEq, Repr

mutual

/-- A JavaScript value as passed to the serialization utilities: primitives, functions,
bigints, symbols, and tree-shaped objects and arrays. Object identity does not appear
here; cyclic object graphs are modelled separately (see `GVal` and `Heap`). -/
inductive JsVal where
  | null
  | undef
  | bool (b : Bool)
  | num (n : JsNum)
  | str (s : String)
  | fn (fnName : String)
  | bigint (i : Int)
  | sym (description : String)
  | obj (fields : JsFields)
  | arr (elems : JsElems)

/-- Ordered own enumerable string-keyed properties of an object. -/
inductive JsFields where
  | nil
  | cons (key : String) (value : JsVal) (rest : JsFields)

/-- Ordered elements of an array. -/
inductive JsElems where
  | nil
  | cons (value : JsVal) (rest : JsElems)

end

/-- Build `JsFields` from an association list. -/
def fieldsOf : List (String × JsVal) → JsFields
  | [] => .nil
  | (k, v) :: rest => .cons k v (fieldsOf rest)

/-- The keys of a field list, in order (Object.keys). -/
def fieldKeys : JsFields → List String
  | .nil => []
  | .cons k _ rest => k :: fieldKeys rest

/-- Whether `needle` is a leading run of `hay` (character-wise comparison). -/
def leadsWith : List Char → List Char → Bool
  | [], _ => true
  | _ :: _, [] => false
  | a :: as, b :: bs => a == b && leadsWith as bs

/-- Whether `needle` occurs contiguously inside `hay`; this is the semantics of
JavaScript's `String.prototype.includes`. -/
def containsSub (hay needle : List Char) : Bool :=
  if leadsWith needle hay then true
  else
    match hay with
    | [] => false
    | _ :: t => containsSub t needle

/-- Lower-case a string character-wise, the model of `String.prototype.toLowerCase`. -/
def lowerChars (s : String) : List Char := s.toList.map Char.toLower

/-- The test `key.toLowerCase().includes(sensitiveKey.toLowerCase())` folded over
the sensitive key list with `Array.prototype.some`
(src/utils/serialization.ts, filterSensitiveData). -/
def keyMatches (key : String) (sensitiveKeys : List String) : Bool :=
  sensitiveKeys.any fun sk => containsSub (lowerChars key) (lowerChars sk)

/-- Default sensitive substrings of filterSensitiveData. -/
def defaultSensitiveKeys : List String := ["password", "token", "secret", "key", "auth"]

/-- The check `typeof value === 'object' && value !== null` used by
filterSensitiveData to decide whether to recurse. Objects and arrays qualify;
null is excluded explicitly, functions have typeof 'function'. -/
def isObjLike : JsVal → Bool
  | .obj _ => true
  | .arr _ => true
  | _ => false

mutual

/-- Embedding of filterSensitiveData (src/utils/serialization.ts). Non-objects are
returned as-is; objects and arrays are rebuilt entry by entry (Object.entries order;
array entries carry their decimal index as key). -/
def filterSensitiveData (v : JsVal) (sensitiveKeys : List String) : JsVal :=
  match v with
  | .obj fields => .obj (filterFields fields sensitiveKeys)
  | .arr elems => .arr (filterElemsFrom elems 0 sensitiveKeys)
  | _ => v

/-- The body of the `for (const [key, value] of Object.entries(obj))` loop of
filterSensitiveData: redact on key match, recurse on nested objects, copy otherwise. -/
def filterFields (fields : JsFields) (sensitiveKeys : List String) : JsFields :=
  match fields with
  | .nil => .nil
  | .cons k v rest =>
    .cons k
      (if keyMatches k sensitiveKeys then .str "[REDACTED]"
       else if isObjLike v then filterSensitiveData v sensitiveKeys
       else v)
      (filterFields rest sensitiveKeys)

/-- Same loop over an array: Object.entries of an array yields index keys "0", "1", …
paired with the elements. -/
def filterElemsFrom (elems : JsElems) (i : Nat) (sensitiveKeys : List String) : JsElems :=
  match elems with
  | .nil => .nil
  | .cons v rest =>
    .cons
      (if keyMatches (toString i) sensitiveKeys then .str "[REDACTED]"
       else if isObjLike v then filterSensitiveData v sensitiveKeys
       else v)
      (filterElemsFrom rest (i + 1) sensitiveKeys)

end

mutual

/-- Modelled from the spec's wording of the redaction contract: recursively rebuild the
same shape, replacing the value of any key whose name case-insensitively contains a
sensitive substring with "[REDACTED]"; primitives pass through unchanged. Used to
compare the spec's description against filterSensitiveData. -/
def redactSpec (v : JsVal) (sensitiveKeys : List String) : JsVal :=
  match v with
  | .obj fields => .obj (redactSpecFields fields sensitiveKeys)
  | .arr elems => .arr (redactSpecElemsFrom elems 0 sensitiveKeys)
  | _ => v

/-- Field part of `redactSpec`. -/
def redactSpecFields (fields : JsFields) (sensitiveKeys : List String) : JsFields :=
  match fields with
  | .nil => .nil
  | .cons k v rest =>
    .cons k
      (if keyMatches k sensitiveKeys then .str "[REDACTED]" else redactSpec v sensitiveKeys)
      (redactSpecFields rest sensitiveKeys)

/-- Array part of `redactSpec`. -/
def redactSpecElemsFrom (elems : JsElems) (i : Nat) (sensitiveKeys : List String) : JsElems :=
  match elems with
  | .nil => .nil
  | .cons v rest =>
    .cons
      (if keyMatches (toString i) sensitiveKeys then .str "[REDACTED]"
       else redactSpec v sensitiveKeys)
      (redactSpecElemsFrom rest (i + 1) sensitiveKeys)

end

/-- JSON string escaping as performed by JSON.stringify on the characters that can
occur in this development. -/
def escapeChar (c : Char) : String :=
  if c = '"' then "\\\""
  else if c = '\\' then "\\\\"
  else if c = '\n' then "\\n"
  else if c = '\r' then "\\r"
  else if c = '\t' then "\\t"
  else String.singleton c

/-- Escape a whole string for inclusion in JSON output. -/
def escape (s : String) : String := String.join (s.toList.map escapeChar)

/-- A JSON string literal: quotes around the escaped text. -/
def qstr (s : String) : String := "\"" ++ escape s ++ "\""

/-- JSON rendering of a JavaScript number; NaN and the infinities serialize as null. -/
def renderNum : JsNum → String
  | .int i => toString i
  | .nan => "null"
  | .posInf => "null"
  | .negInf => "null"

/-- Comma-join a list of already rendered pieces. -/
def joinComma : List String → String
  | [] => ""
  | [x] => x
  | x :: rest => x ++ "," ++ joinComma rest

mutual

/-- Embedding of safeStringify (src/utils/serialization.ts) restricted to tree-shaped
(acyclic, unshared) values, where the replacer's WeakSet check never fires because
every node is a distinct identity visited once. The replacer's other branches are kept:
functions, undefined, BigInt and Symbol become marker strings, NaN and the infinities
become null, everything else is standard JSON encoding. -/
def safeStringifyTree : JsVal → String
  | .null => "null"
  | .undef => qstr "[undefined]"
  | .bool b => cond b "true" "false"
  | .num n => renderNum n
  | .str s => qstr s
  | .fn fnName => qstr ("[Function: " ++ (if fnName = "" then "anonymous" else fnName) ++ "]")
  | .bigint i => qstr ("[BigInt: " ++ toString i ++ "]")
  | .sym d => qstr ("[Symbol: " ++ d ++ "]")
  | .obj fields => "\x7b" ++ stringifyFields fields ++ "\x7d"
  | .arr elems => "[" ++ stringifyElems elems ++ "]"

/-- Object body of `safeStringifyTree`. -/
def stringifyFields : JsFields → String
  | .nil => ""
  | .cons k v .nil => qstr k ++ ":" ++ safeStringifyTree v
  | .cons k v (.cons k' v' rest) =>
    qstr k ++ ":" ++ safeStringifyTree v ++ "," ++ stringifyFields (.cons k' v' rest)

/-- Array body of `safeStringifyTree`. -/
def stringifyElems : JsElems → String
  | .nil => ""
  | .cons v .nil => safeStringifyTree v
  | .cons v (.cons v' rest) => safeStringifyTree v ++ "," ++ stringifyElems (.cons v' rest)

end

/-- A log entry (src/core/types.ts, LogEntry). The timestamp Date is modelled by its
ISO-8601 rendering, which is the only way the core reads it. -/
structure LogEntry where
  timestamp : String
  level : LogLevel
  message : String
  metadata : Option (List (String × JsVal))
  runtime : RuntimeName

/-- The output format argument of formatLogEntry. -/
inductive LogFormat where
  | text
  | json
deriving DecidableEq, Repr

/-- First binding of a key in an association list, the model of property access. -/
def lookupField : List (String × JsVal) → String → Option JsVal
  | [], _ => none
  | (k, v) :: rest, key => if k = key then some v else lookupField rest key

/-- Whether an association list binds a key. -/
def hasKey (l : List (String × JsVal)) (k : String) : Bool := (lookupField l k).isSome

/-- JavaScript object spread `\x7b ...a, ...b \x7d`: keys of `a` in their order, each
overridden by `b` when `b` also binds it, followed by the keys only `b` binds. -/
def spreadMerge (a b : List (String × JsVal)) : List (String × JsVal) :=
  (a.map fun kv => (kv.1, (lookupField b kv.1).getD kv.2))
    ++ b.filter fun kv => !hasKey a kv.1

/-- The key/value pairs of the `jsonEntry` object built by formatLogEntry
(src/utils/formatting.ts) in JSON mode: timestamp, lowercased level name, message and
runtime in insertion order, then metadata appended only when the entry has some. -/
def jsonEntryPairs (entry : LogEntry) : List (String × JsVal) :=
  [("timestamp", JsVal.str entry.timestamp),
   ("level", JsVal.str (String.mk (lowerChars (LogLevel.name entry.level)))),
   ("message", JsVal.str entry.message),
   ("runtime", JsVal.str entry.runtime.toStr)]
    ++ match entry.metadata with
       | some m => [("metadata", JsVal.obj (fieldsOf m))]
       | none => []

/-- Upper-case a string character-wise, the model of `String.prototype.toUpperCase`. -/
def upperChars (s : String) : String := String.mk (s.toList.map Char.toUpper)

/-- Embedding of formatLogEntry (src/utils/formatting.ts): JSON mode serializes the
`jsonEntry` object, text mode renders "[timestamp] LEVEL: message" plus serialized
metadata when present. -/
def formatLogEntry (entry : LogEntry) (format : LogFormat) : String :=
  match format with
  | .json => safeStringifyTree (JsVal.obj (fieldsOf (jsonEntryPairs entry)))
  | .text =>
    let metaStr :=
      match entry.metadata with
      | some m => " " ++ safeStringifyTree (JsVal.obj (fieldsOf m))
      | none => ""
    "[" ++ entry.timestamp ++ "] " ++ upperChars (LogLevel.name entry.level)
      ++ ": " ++ entry.message ++ metaStr

/-- Partial<LoggerConfig> as consumed by the BaseLogger constructor
(src/core/logger.ts). Only the `level` field is ever read by the dispatch engine;
the remaining config fields do not influence the behavior modelled here. -/
structure LoggerConfigP where
  level : Option LogLevel
deriving DecidableEq, Repr

/-- The mutable state of a BaseLogger instance (src/core/logger.ts): current level,
the stored constructor config, the detected runtime name, and childMetadata. -/
structure LoggerState where
  level : LogLevel
  config : LoggerConfigP
  runtime : RuntimeName
  childMetadata : List (String × JsVal)

/-- The BaseLogger constructor: `this.level = config.level ?? LogLevel.INFO`,
`this.config = config`, `this.runtime = detectRuntime().name` (the ambient runtime is
a parameter here), and childMetadata starts empty. -/
def BaseLogger.ctor (config : LoggerConfigP) (runtime : RuntimeName) : LoggerState :=
  { level := config.level.getD .info
    config := config
    runtime := runtime
    childMetadata := [] }

/-- BaseLogger.shouldLog: `level >= this.level`. -/
def BaseLogger.shouldLog (st : LoggerState) (level : LogLevel) : Bool :=
  decide (st.level.toNat ≤ level.toNat)

/-- BaseLogger.setLevel mutates only the level field. -/
def BaseLogger.setLevel (st : LoggerState) (level : LogLevel) : LoggerState :=
  { st with level := level }

/-- BaseLogger.getLevel. -/
def BaseLogger.getLevel (st : LoggerState) : LogLevel := st.level

/-- createChild of both concrete adapters (src/runtime/node.ts NodeLogger.createChild
and src/runtime/browser.ts BrowserLogger.createChild): construct a fresh instance from
the stored config — `new NodeLogger(this.config)` — in the same ambient runtime. -/
def NodeLogger.createChild (st : LoggerState) : LoggerState :=
  BaseLogger.ctor st.config st.runtime

/-- BaseLogger.child: create via the subclass hook, then set the child's childMetadata
to the spread merge of the parent's childMetadata and the argument. -/
def BaseLogger.child (st : LoggerState) (metadata : List (String × JsVal)) : LoggerState :=
  let childLogger := NodeLogger.createChild st
  { childLogger with childMetadata := spreadMerge st.childMetadata metadata }

/-- A log message: a string, or a lazy zero-argument function. The function may throw,
modelled by `Except String`; a normal JavaScript function corresponds to one always
returning `.ok`. -/
inductive LogMessage where
  | str (s : String)
  | fn (f : Unit → Except String String)

/-- Observable events of one BaseLogger.log call: the lazy message function being
invoked, and the abstract writeLog hook being handed an entry. -/
inductive LogEvent where
  | invokedMessage
  | wrote (entry : LogEntry)

/-- Embedding of BaseLogger.log (src/core/logger.ts): return immediately when
shouldLog rejects; otherwise resolve the message (invoking it when callable — an
exception there propagates, there is no try/catch in the source), spread-merge
childMetadata with the call-site metadata, build the entry (metadata omitted when the
merge is empty, timestamp from the ambient clock `now`), and hand it to writeLog. -/
def BaseLogger.log (st : LoggerState) (now : String) (level : LogLevel)
    (message : LogMessage) (metadata : Option (List (String × JsVal))) :
    Except String (List LogEvent) :=
  if !BaseLogger.shouldLog st level then .ok []
  else
    let invokeTrace : List LogEvent :=
      match message with
      | .str _ => []
      | .fn _ => [.invokedMessage]
    match (match message with | .str s => Except.ok s | .fn f => f ()) with
    | .error e => .error e
    | .ok resolvedMessage =>
      let combinedMetadata := spreadMerge st.childMetadata (metadata.getD [])
      let entry : LogEntry :=
        { timestamp := now
          level := level
          message := resolvedMessage
          metadata := if combinedMetadata.length > 0 then some combinedMetadata else none
          runtime := st.runtime }
      .ok (invokeTrace ++ [.wrote entry])

/-- BaseLogger.debug: sugar for log(DEBUG, message, metadata). -/
def BaseLogger.debug (st : LoggerState) (now : String) (message : LogMessage)
    (metadata : Option (List (String × JsVal))) : Except String (List LogEvent) :=
  BaseLogger.log st now .debug message metadata

/-- BaseLogger.info: sugar for log(INFO, message, metadata). -/
def BaseLogger.info (st : LoggerState) (now : String) (message : LogMessage)
    (metadata : Option (List (String × JsVal))) : Except String (List LogEvent) :=
  BaseLogger.log st now .info message metadata

/-- BaseLogger.warn: sugar for log(WARN, message, metadata). -/
def BaseLogger.warn (st : LoggerState) (now : String) (message : LogMessage)
    (metadata : Option (List (String × JsVal))) : Except String (List LogEvent) :=
  BaseLogger.log st now .warn message metadata

/-- BaseLogger.error: sugar for log(ERROR, message, metadata). -/
def BaseLogger.error (st : LoggerState) (now : String) (message : LogMessage)
    (metadata : Option (List (String × JsVal))) : Except String (List LogEvent) :=
  BaseLogger.log st now .error message metadata

/-- Whether an event is a writeLog invocation. -/
def isWrite : LogEvent → Bool
  | .wrote _ => true
  | .invokedMessage => false

/-- Number of writeLog invocations of one call's outcome. -/
def writesOf : Except String (List LogEvent) → Nat
  | .error _ => 0
  | .ok evs => (evs.filter isWrite).length

/-- Number of lazy-message invocations of one call's outcome. -/
def invokesOf : Except String (List LogEvent) → Nat
  | .error _ => 0
  | .ok evs => (evs.filter fun e => !isWrite e).length

/-- BrowserLogger.shouldLogInProduction (src/runtime/browser.ts):
`env !== 'production' || this.level <= LogLevel.ERROR`, with `env` the resolved
NODE_ENV-style environment string. -/
def BrowserLogger.shouldLogInProduction (env : String) (st : LoggerState) : Bool :=
  env ≠ "production" || decide (st.level.toNat ≤ LogLevel.error.toNat)

/-- BrowserLogger.shouldLog (src/runtime/browser.ts): suppress sub-ERROR calls when
shouldLogInProduction is false, otherwise defer to BaseLogger.shouldLog. -/
def BrowserLogger.shouldLog (env : String) (st : LoggerState) (level : LogLevel) : Bool :=
  if !BrowserLogger.shouldLogInProduction env st
      && decide (level.toNat < LogLevel.error.toNat) then false
  else BaseLogger.shouldLog st level

/-- A value in the object-graph model of safeStringify: primitives as in `JsVal`, and
references to heap nodes standing for JavaScript object identity. -/
inductive GVal where
  | null
  | undef
  | bool (b : Bool)
  | num (n : JsNum)
  | str (s : String)
  | fn (fnName : String)
  | bigint (i : Int)
  | sym (description : String)
  | ref (id : Nat)
deriving DecidableEq, Repr

/-- A heap node: an object or array with its ordered own enumerable entries (arrays
carry decimal index keys). -/
structure GNode where
  isArray : Bool
  entries : List (String × GVal)
deriving DecidableEq, Repr

/-- An object graph: node ids bound to nodes; cycles arise through `GVal.ref`. -/
abbrev Heap := List (Nat × GNode)

/-- Find the node bound to an id. -/
def lookupNode : Heap → Nat → Option GNode
  | [], _ => none
  | (i, node) :: rest, id => if i = id then some node else lookupNode rest id

/-- Render one finished node: array brackets around the values, or object braces
around quoted-key/value pairs. -/
def renderNodeStr (isArray : Bool) (ps : List (String × String)) : String :=
  if isArray then "[" ++ joinComma (ps.map Prod.snd) ++ "]"
  else "\x7b" ++ joinComma (ps.map fun p => qstr p.1 ++ ":" ++ p.2) ++ "\x7d"

/-- Serialize a node's entry list left to right, threading the seen set exactly as the
single mutable WeakSet of safeStringify is threaded through the depth-first walk. -/
def serializeEntriesWith (recur : List Nat → GVal → Option (String × List Nat)) :
    List Nat → List (String × GVal) → Option (List (String × String) × List Nat)
  | seen, [] => some ([], seen)
  | seen, (k, v) :: rest =>
    match recur seen v with
    | none => none
    | some (s, seen₁) =>
      match serializeEntriesWith recur seen₁ rest with
      | none => none
      | some (ps, seen₂) => some ((k, s) :: ps, seen₂)

/-- Embedding of safeStringify's replacer combined with JSON.stringify's walk over an
object graph (src/utils/serialization.ts). Replacer branches in source order: an
already-seen object serializes as the string "[Circular]"; an unseen object is added
to the seen set and recursed into; functions, undefined, BigInt and Symbol become
marker strings; everything else is standard JSON encoding. The fuel argument bounds
the depth of object expansions; each expansion consumes one unit, and a sufficient
bound is proved below. -/
def serializeVal (heap : Heap) : Nat → List Nat → GVal → Option (String × List Nat)
  | fuel, seen, v =>
    match v with
    | .null => some ("null", seen)
    | .undef => some (qstr "[undefined]", seen)
    | .bool b => some (cond b "true" "false", seen)
    | .num n => some (renderNum n, seen)
    | .str s => some (qstr s, seen)
    | .fn fnName =>
      some (qstr ("[Function: " ++ (if fnName = "" then "anonymous" else fnName) ++ "]"), seen)
    | .bigint i => some (qstr ("[BigInt: " ++ toString i ++ "]"), seen)
    | .sym d => some (qstr ("[Symbol: " ++ d ++ "]"), seen)
    | .ref id =>
      if id ∈ seen then some (qstr "[Circular]", seen)
      else
        match fuel with
        | 0 => none
        | fuel' + 1 =>
          match lookupNode heap id with
          | none => none
          | some node =>
            match serializeEntriesWith (fun s' v' => serializeVal heap fuel' s' v')
                (id :: seen) node.entries with
            | none => none
            | some (ps, seen') => some (renderNodeStr node.isArray ps, seen')

/-- safeStringify on an object graph: run the walk with enough fuel for every node to
be expanded at most once along any path. -/
def safeStringify (heap : Heap) (root : GVal) : Option String :=
  (serializeVal heap (heap.length + 1) [] root).map Prod.fst

/-- Whether a graph value only references ids bound in the heap. -/
def valClosed (heap : Heap) : GVal → Bool
  | .ref id => (lookupNode heap id).isSome
  | _ => true

/-- A well-formed heap: every entry of every node references only bound ids. This is
automatic for heaps arising from real JavaScript object graphs. -/
def heapWF (heap : Heap) : Bool :=
  heap.all fun p => p.2.entries.all fun kv => valClosed heap kv.2

/-- Number of heap ids not yet in the seen set; the measure that shrinks with every
object expansion. -/
def unvisited (heap : Heap) (seen : List Nat) : Nat :=
  ((heap.map Prod.fst).filter fun i => decide (i ∉ seen)).length

/-- A directly self-referential object: `obj.self = obj`. -/
def selfHeap : Heap := [(0, { isArray := false, entries := [("self", GVal.ref 0)] })]

/-- A self-referential array: `arr = [1]; arr.push(arr)` shape. -/
def cycArrHeap : Heap :=
  [(0, { isArray := true, entries := [("0", GVal.num (.int 1)), ("1", GVal.ref 0)] })]

/-- A cycle at depth greater than one: the grandchild references the root. -/
def deepHeap : Heap :=
  [(0, { isArray := false, entries := [("child", GVal.ref 1)] }),
   (1, { isArray := false, entries := [("parent", GVal.ref 0)] })]

/-- A config fixing the constructor-time level at WARN. -/
def cfgWarn : LoggerConfigP := { level := some .warn }

/-- The redaction example of the spec: a matching top-level key, and a nested object
with one matching and one safe key. -/
def redactExample : JsVal :=
  .obj (.cons "password" (.str "p")
    (.cons "nested" (.obj (.cons "apiKey" (.str "k") (.cons "safe" (.str "s") .nil))) .nil))

/-- The output the spec requires for `redactExample`. -/
def redactExpected : JsVal :=
  .obj (.cons "password" (.str "[REDACTED]")
    (.cons "nested"
      (.obj (.cons "apiKey" (.str "[REDACTED]") (.cons "safe" (.str "s") .nil))) .nil))

section Lemmas

/-- Filtering with a stronger predicate keeps at most as many elements. -/
theorem length_filter_le_of_imp {α : Type} (l : List α) (p q : α → Bool)
    (h : ∀ a, p a = true → q a = true) :
    (l.filter p).length ≤ (l.filter q).length := by
  induction l with
  | nil => simp
  | cons a t ih =>
    cases hp : p a with
    | false =>
      cases hq : q a with
      | false => simpa [List.filter_cons, hp, hq] using ih
      | true =>
        simp only [List.filter_cons, hp, hq, if_true, if_false, List.length_cons,
          Bool.false_eq_true, if_false]
        omega
    | true =>
      have hq := h a hp
      simp only [List.filter_cons, hp, hq, if_true, List.length_cons]
      omega

/-- Filtering with a stronger predicate that additionally rejects a kept element keeps
strictly fewer elements. -/
theorem length_filter_lt_of_witness {α : Type} (l : List α) (p q : α → Bool)
    (h : ∀ a, p a = true → q a = true) (a : α) (ha : a ∈ l)
    (hqa : q a = true) (hpa : p a = false) :
    (l.filter p).length < (l.filter q).length := by
  induction l with
  | nil => cases ha
  | cons b t ih =>
    rcases List.mem_cons.mp ha with rfl | hmem
    · simp only [List.filter_cons, hpa, hqa, if_true, Bool.false_eq_true, if_false,
        List.length_cons]
      exact Nat.lt_succ_of_le (length_filter_le_of_imp t p q h)
    · cases hp : p b with
      | false =>
        cases hq : q b with
        | false => simpa [List.filter_cons, hp, hq] using ih hmem
        | true =>
          simp only [List.filter_cons, hp, hq, if_true, Bool.false_eq_true, if_false,
            List.length_cons]
          exact Nat.lt_succ_of_le (length_filter_le_of_imp t p q h)
      | true =>
        have hq := h b hp
        simp only [List.filter_cons, hp, hq, if_true, List.length_cons]
        exact Nat.succ_lt_succ (ih hmem)

/-- Growing the seen set cannot increase the number of unvisited ids. -/
theorem unvisited_le_of_subset (heap : Heap) (s₁ s₂ : List Nat) (h : s₁ ⊆ s₂) :
    unvisited heap s₂ ≤ unvisited heap s₁ := by
  apply length_filter_le_of_imp
  intro a ha
  simp only [decide_eq_true_eq] at ha ⊢
  exact fun hmem => ha (h hmem)

/-- Marking a fresh heap id as seen strictly shrinks the unvisited count. -/
theorem unvisited_cons_lt (heap : Heap) (seen : List Nat) (id : Nat)
    (hidmem : id ∈ heap.map Prod.fst) (hid : id ∉ seen) :
    unvisited heap (id :: seen) < unvisited heap seen := by
  refine length_filter_lt_of_witness _ _ _ ?_ id hidmem ?_ ?_
  · intro a ha
    simp only [decide_eq_true_eq] at ha ⊢
    exact fun hmem => ha (List.mem_cons_of_mem _ hmem)
  · simpa using hid
  · simp

/-- A successful lookup means the binding is in the heap. -/
theorem lookupNode_mem (heap : Heap) (id : Nat) (node : GNode)
    (h : lookupNode heap id = some node) : (id, node) ∈ heap := by
  induction heap with
  | nil => simp [lookupNode] at h
  | cons p rest ih =>
    obtain ⟨i, n⟩ := p
    by_cases hi : i = id
    · subst hi
      simp only [lookupNode, if_true, if_pos rfl, Option.some.injEq] at h
      subst h
      exact List.mem_cons_self _ _
    · simp only [lookupNode, if_neg hi] at h
      exact List.mem_cons_of_mem _ (ih h)

/-- A successful lookup means the id is among the heap's keys. -/
theorem lookupNode_key_mem (heap : Heap) (id : Nat) (node : GNode)
    (h : lookupNode heap id = some node) : id ∈ heap.map Prod.fst :=
  List.mem_map.mpr ⟨(id, node), lookupNode_mem heap id node h, rfl⟩

/-- In a well-formed heap, every entry of every reachable node is closed. -/
theorem heapWF_entries (heap : Heap) (id : Nat) (node : GNode)
    (hwf : heapWF heap = true) (h : lookupNode heap id = some node) :
    ∀ kv ∈ node.entries, valClosed heap kv.2 = true := by
  have hmem := lookupNode_mem heap id node h
  simp only [heapWF, List.all_eq_true] at hwf
  exact hwf (id, node) hmem

/-- If the per-value serializer succeeds below a fuel bound and only grows the seen
set, so does the entry-list walk. -/
theorem serializeEntriesWith_spec (heap : Heap)
    (recur : List Nat → GVal → Option (String × List Nat)) (bound : Nat)
    (hrec : ∀ seen v, valClosed heap v = true → unvisited heap seen < bound →
      ∃ s seen', recur seen v = some (s, seen') ∧ seen ⊆ seen') :
    ∀ seen entries, (∀ kv ∈ entries, valClosed heap kv.2 = true) →
      unvisited heap seen < bound →
      ∃ ps seen', serializeEntriesWith recur seen entries = some (ps, seen') ∧ seen ⊆ seen' := by
  intro seen entries
  induction entries generalizing seen with
  | nil => exact fun _ _ => ⟨[], seen, rfl, List.Subset.refl _⟩
  | cons kv rest ih =>
    intro hcl hlt
    obtain ⟨k, v⟩ := kv
    obtain ⟨s, seen₁, hs, hsub₁⟩ :=
      hrec seen v (hcl (k, v) (List.mem_cons_self _ _)) hlt
    have hlt₁ : unvisited heap seen₁ < bound :=
      lt_of_le_of_lt (unvisited_le_of_subset heap seen seen₁ hsub₁) hlt
    obtain ⟨ps, seen₂, hps, hsub₂⟩ :=
      ih seen₁ (fun kv' h' => hcl kv' (List.mem_cons_of_mem _ h')) hlt₁
    refine ⟨(k, s) :: ps, seen₂, ?_, hsub₁.trans hsub₂⟩
    simp [serializeEntriesWith, hs, hps]

/-- With fuel exceeding the number of unvisited heap ids, the walk of a well-formed
graph always succeeds, and the seen set only grows. -/
theorem serializeVal_isSome (heap : Heap) (hwf : heapWF heap = true) :
    ∀ fuel seen v, valClosed heap v = true → unvisited heap seen < fuel →
      ∃ s seen', serializeVal heap fuel seen v = some (s, seen') ∧ seen ⊆ seen' := by
  intro fuel
  induction fuel with
  | zero => intro seen v _ hlt; omega
  | succ n ih =>
    intro seen v hv hlt
    match v with
    | .null => exact ⟨_, seen, rfl, List.Subset.refl _⟩
    | .undef => exact ⟨_, seen, rfl, List.Subset.refl _⟩
    | .bool b => exact ⟨_, seen, rfl, List.Subset.refl _⟩
    | .num m => exact ⟨_, seen, rfl, List.Subset.refl _⟩
    | .str s => exact ⟨_, seen, rfl, List.Subset.refl _⟩
    | .fn fnName => exact ⟨_, seen, rfl, List.Subset.refl _⟩
    | .bigint i => exact ⟨_, seen, rfl, List.Subset.refl _⟩
    | .sym d => exact ⟨_, seen, rfl, List.Subset.refl _⟩
    | .ref id =>
      by_cases hseen : id ∈ seen
      · exact ⟨qstr "[Circular]", seen, by simp [serializeVal, hseen], List.Subset.refl _⟩
      · obtain ⟨node, hnode⟩ : ∃ node, lookupNode heap id = some node := by
          simpa [valClosed, Option.isSome_iff_exists] using hv
        have hidmem := lookupNode_key_mem heap id node hnode
        have hstep : unvisited heap (id :: seen) < n := by
          have h1 := unvisited_cons_lt heap seen id hidmem hseen
          omega
        obtain ⟨ps, seen', hps, hsub⟩ :=
          serializeEntriesWith_spec heap (fun s' v' => serializeVal heap n s' v') n
            (fun s' v' hc hl => ih s' v' hc hl) (id :: seen) node.entries
            (heapWF_entries heap id node hwf hnode) hstep
        refine ⟨renderNodeStr node.isArray ps, seen', ?_, ?_⟩
        · simp [serializeVal, hseen, hnode, hps]
        · exact (List.subset_cons_self _ _).trans hsub

/-- safeStringify terminates with a result on every well-formed object graph: the
default fuel, one more than the heap size, always suffices. -/
theorem safeStringify_isSome (heap : Heap) (root : GVal)
    (hwf : heapWF heap = true) (hroot : valClosed heap root = true) :
    (safeStringify heap root).isSome := by
  have hle : unvisited heap [] ≤ heap.length := by
    have h1 := List.length_filter_le (fun i => decide (i ∉ ([] : List Nat))) (heap.map Prod.fst)
    simp only [unvisited, List.length_map] at h1 ⊢
    exact h1
  obtain ⟨s, seen', h, _⟩ :=
    serializeVal_isSome heap hwf (heap.length + 1) [] root hroot (by omega)
  simp [safeStringify, h]

/-- A value that is not object-like is left unchanged by `redactSpec`. -/
theorem redactSpec_of_not_objLike (v : JsVal) (ks : List String) (h : isObjLike v = false) :
    redactSpec v ks = v := by
  cases v <;> first | rfl | simp [isObjLike] at h

mutual

/-- The source's filterSensitiveData agrees everywhere with the spec's description of
redaction; the two differ only in that the source skips the recursive call on
non-object values, where recursion is the identity anyway. -/
theorem filterSensitiveData_eq_redactSpec (v : JsVal) (ks : List String) :
    filterSensitiveData v ks = redactSpec v ks :=
  match v with
  | .null => rfl
  | .undef => rfl
  | .bool _ => rfl
  | .num _ => rfl
  | .str _ => rfl
  | .fn _ => rfl
  | .bigint _ => rfl
  | .sym _ => rfl
  | .obj fields => congrArg JsVal.obj (filterFields_eq_redactSpec fields ks)
  | .arr elems => congrArg JsVal.arr (filterElemsFrom_eq_redactSpec elems 0 ks)

/-- Field part of the agreement. -/
theorem filterFields_eq_redactSpec (fields : JsFields) (ks : List String) :
    filterFields fields ks = redactSpecFields fields ks :=
  match fields with
  | .nil => rfl
  | .cons k v rest => by
    have hv : (if keyMatches k ks then JsVal.str "[REDACTED]"
          else if isObjLike v then filterSensitiveData v ks else v)
        = (if keyMatches k ks then JsVal.str "[REDACTED]" else redactSpec v ks) := by
      by_cases h : keyMatches k ks = true
      · simp [h]
      · by_cases ho : isObjLike v = true
        · simp [h, ho, filterSensitiveData_eq_redactSpec v ks]
        · have ho' : isObjLike v = false := by revert ho; cases isObjLike v <;> simp
          simp [h, ho', redactSpec_of_not_objLike v ks ho']
    show JsFields.cons k _ (filterFields rest ks) = JsFields.cons k _ (redactSpecFields rest ks)
    rw [hv, filterFields_eq_redactSpec rest ks]

/-- Array part of the agreement. -/
theorem filterElemsFrom_eq_redactSpec (elems : JsElems) (i : Nat) (ks : List String) :
    filterElemsFrom elems i ks = redactSpecElemsFrom elems i ks :=
  match elems with
  | .nil => rfl
  | .cons v rest => by
    have hv : (if keyMatches (toString i) ks then JsVal.str "[REDACTED]"
          else if isObjLike v then filterSensitiveData v ks else v)
        = (if keyMatches (toString i) ks then JsVal.str "[REDACTED]" else redactSpec v ks) := by
      by_cases h : keyMatches (toString i) ks = true
      · simp [h]
      · by_cases ho : isObjLike v = true
        · simp [h, ho, filterSensitiveData_eq_redactSpec v ks]
        · have ho' : isObjLike v = false := by revert ho; cases isObjLike v <;> simp
          simp [h, ho', redactSpec_of_not_objLike v ks ho']
    show JsElems.cons _ (filterElemsFrom rest (i + 1) ks)
        = JsElems.cons _ (redactSpecElemsFrom rest (i + 1) ks)
    rw [hv, filterElemsFrom_eq_redactSpec rest (i + 1) ks]

end

end Lemmas

section Claims

/-- C1: a log call is written (the writeLog hook receives exactly one entry) if and
only if the call level is at or above the configured threshold, for plain and for
successfully-resolving lazy messages; and BrowserLogger's production gate is
extensionally the same filter as BaseLogger.shouldLog, so the rule holds for every
logger instance. -/
theorem claim_C1 :
    (∀ (st : LoggerState) (now : String) (level : LogLevel) (s : String)
        (md : Option (List (String × JsVal))),
      writesOf (BaseLogger.log st now level (.str s) md)
        = if st.level.toNat ≤ level.toNat then 1 else 0)
    ∧ (∀ (st : LoggerState) (now : String) (level : LogLevel)
        (f : Unit → Except String String) (res : String)
        (md : Option (List (String × JsVal))), f () = .ok res →
      writesOf (BaseLogger.log st now level (.fn f) md)
        = if st.level.toNat ≤ level.toNat then 1 else 0)
    ∧ (∀ (env : String) (st : LoggerState) (level : LogLevel),
        BrowserLogger.shouldLog env st level = BaseLogger.shouldLog st level) := by
  refine ⟨?_, ?_, ?_⟩
  · intro st now level s md
    by_cases h : st.level.toNat ≤ level.toNat
    · simp [BaseLogger.log, BaseLogger.shouldLog, h, writesOf, isWrite]
    · simp [BaseLogger.log, BaseLogger.shouldLog, h, writesOf]
  · intro st now level f res md hres
    by_cases h : st.level.toNat ≤ level.toNat
    · simp [BaseLogger.log, BaseLogger.shouldLog, h, hres, writesOf, isWrite]
    · simp [BaseLogger.log, BaseLogger.shouldLog, h, writesOf]
  · intro env st level
    by_cases hp : BrowserLogger.shouldLogInProduction env st = true
    · simp [BrowserLogger.shouldLog, hp]
    · have hlv : st.level = .silent := by
        revert hp
        simp only [BrowserLogger.shouldLogInProduction, Bool.or_eq_true, ne_eq,
          decide_eq_true_eq, not_or]
        intro h
        have h2 := h.2
        cases hl : st.level <;> simp [hl, LogLevel.toNat] at h2 ⊢
      by_cases hl : level.toNat < LogLevel.error.toNat
      · have hbase : BaseLogger.shouldLog st level = false := by
          simp only [BaseLogger.shouldLog, hlv, LogLevel.toNat, decide_eq_false_iff_not]
          revert hl
          cases level <;> simp [LogLevel.toNat]
        simp [BrowserLogger.shouldLog, hp, hl, hbase]
      · simp [BrowserLogger.shouldLog, hp, hl]

/-- C1 witness: at threshold INFO, a WARN call with a lazy message produces exactly
one write. -/
theorem claim_C1_witness :
    writesOf (BaseLogger.log (BaseLogger.ctor { level := some .info } .node) "t" .warn
      (.fn fun _ => .ok "m") none) = 1 := by
  have h := claim_C1.2.1 (BaseLogger.ctor { level := some .info } .node) "t" .warn
    (fun _ => .ok "m") "m" none rfl
  simpa [BaseLogger.ctor, LogLevel.toNat] using h

/-- C2: the code evaluated at the failing input. A lazy message that throws makes
BaseLogger.log propagate the exception to the caller (there is no try/catch in the
source), contradicting the never-throws contract; with a plain string message the
call always returns normally, whatever the metadata. -/
theorem claim_C2 :
    BaseLogger.log (BaseLogger.ctor { level := some .info } .node) "t" .info
      (.fn fun _ => .error "boom") none = .error "boom"
    ∧ (∀ (st : LoggerState) (now : String) (level : LogLevel) (s : String)
        (md : Option (List (String × JsVal))),
        ∃ evs, BaseLogger.log st now level (.str s) md = .ok evs) := by
  constructor
  · rfl
  · intro st now level s md
    by_cases h : BaseLogger.shouldLog st level = true
    · refine ⟨[LogEvent.wrote
        { timestamp := now, level := level, message := s,
          metadata := if (spreadMerge st.childMetadata (md.getD [])).length > 0
            then some (spreadMerge st.childMetadata (md.getD [])) else none,
          runtime := st.runtime }], ?_⟩
      simp [BaseLogger.log, h]
    · exact ⟨[], by simp [BaseLogger.log, h]⟩

/-- C3 counterexample: a parent constructed at WARN then setLevel(ERROR) spawns a
child whose level is WARN, not the parent's current resolved level ERROR. -/
theorem claim_C3_counterexample :
    (BaseLogger.child (BaseLogger.setLevel (BaseLogger.ctor cfgWarn .node) .error) []).level
      = .warn
    ∧ (BaseLogger.setLevel (BaseLogger.ctor cfgWarn .node) .error).level = .error
    ∧ LogLevel.warn ≠ LogLevel.error := ⟨rfl, rfl, by decide⟩

/-- C3 amended: child(metadata) re-derives its level from the parent's stored config
(config.level with INFO as default), not from the parent's current resolved level, so
a level changed via setLevel is not inherited; afterwards the levels are independent,
since setLevel changes nothing but the level field of the instance it is called on. -/
theorem claim_C3 :
    ∀ (cfg : LoggerConfigP) (rt : RuntimeName) (l : LogLevel) (md : List (String × JsVal)),
      (BaseLogger.child (BaseLogger.setLevel (BaseLogger.ctor cfg rt) l) md).level
        = cfg.level.getD .info
      ∧ (BaseLogger.child (BaseLogger.ctor cfg rt) md).level = cfg.level.getD .info
      ∧ ∀ (st : LoggerState) (l₂ : LogLevel),
          (BaseLogger.setLevel st l₂).level = l₂
          ∧ (BaseLogger.setLevel st l₂).config = st.config
          ∧ (BaseLogger.setLevel st l₂).childMetadata = st.childMetadata :=
  fun _ _ _ _ => ⟨rfl, rfl, fun _ _ => ⟨rfl, rfl, rfl⟩⟩

/-- C4 counterexample: deno's capability profile has fileSystem=true, yet the factory
hands deno the console adapter (BrowserLogger), not the backend-integrated one. -/
theorem claim_C4_counterexample :
    (getRuntimeCapabilities .deno).fileSystem = true
    ∧ LoggerFactory.create .deno = .browserLogger := ⟨rfl, rfl⟩

/-- C4 amended: the factory's mapping is total, and a runtime receives the
backend-integrated adapter exactly when its profile has fileSystem=true and it is not
deno; deno (despite fileSystem=true) and every profile without file access fall to the
console adapter. -/
theorem claim_C4 :
    ∀ r : RuntimeName,
      LoggerFactory.create r = .nodeLogger ↔
        ((getRuntimeCapabilities r).fileSystem = true ∧ r ≠ .deno) := by
  intro r
  cases r <;> simp [LoggerFactory.create, getRuntimeCapabilities]

/-- C5: safeStringify terminates on every well-formed object graph — cyclic or not —
and a node met again during the walk serializes as the string "[Circular]", as
witnessed on a direct object self-cycle, an array cycle, and a depth-2 cycle where a
grandchild references the root. -/
theorem claim_C5 :
    (∀ (heap : Heap) (root : GVal), heapWF heap = true → valClosed heap root = true →
      (safeStringify heap root).isSome)
    ∧ safeStringify selfHeap (.ref 0) = some "\x7b\"self\":\"[Circular]\"\x7d"
    ∧ safeStringify cycArrHeap (.ref 0) = some "[1,\"[Circular]\"]"
    ∧ safeStringify deepHeap (.ref 0)
        = some "\x7b\"child\":\x7b\"parent\":\"[Circular]\"\x7d\x7d" :=
  ⟨safeStringify_isSome, rfl, rfl, rfl⟩

/-- C5 witness: the universal termination part applied to the concrete self-cycle. -/
theorem claim_C5_witness :
    heapWF selfHeap = true ∧ valClosed selfHeap (GVal.ref 0) = true
    ∧ (safeStringify selfHeap (GVal.ref 0)).isSome :=
  ⟨rfl, rfl, claim_C5.1 selfHeap (GVal.ref 0) rfl rfl⟩

/-- C6: below the threshold a lazy message is never invoked — the call returns with no
events at all, independently of the function; at or above the threshold it is invoked
exactly once and its return value becomes the entry's message. -/
theorem claim_C6 :
    (∀ (st : LoggerState) (now : String) (level : LogLevel)
        (f : Unit → Except String String) (md : Option (List (String × JsVal))),
      ¬ st.level.toNat ≤ level.toNat →
        BaseLogger.log st now level (.fn f) md = .ok [])
    ∧ (∀ (st : LoggerState) (now : String) (level : LogLevel)
        (f : Unit → Except String String) (md : Option (List (String × JsVal)))
        (res : String),
      st.level.toNat ≤ level.toNat → f () = .ok res →
        invokesOf (BaseLogger.log st now level (.fn f) md) = 1
        ∧ ∃ entry, BaseLogger.log st now level (.fn f) md
            = .ok [.invokedMessage, .wrote entry] ∧ entry.message = res) := by
  constructor
  · intro st now level f md h
    simp [BaseLogger.log, BaseLogger.shouldLog, h]
  · intro st now level f md res h hres
    constructor
    · simp [BaseLogger.log, BaseLogger.shouldLog, h, hres, invokesOf, isWrite]
    · refine ⟨
        { timestamp := now, level := level, message := res,
          metadata := if (spreadMerge st.childMetadata (md.getD [])).length > 0
            then some (spreadMerge st.childMetadata (md.getD [])) else none,
          runtime := st.runtime }, ?_, rfl⟩
      simp [BaseLogger.log, BaseLogger.shouldLog, h, hres]

/-- C6 witness: at threshold WARN, a DEBUG call never invokes the function and an
ERROR call invokes it exactly once. -/
theorem claim_C6_witness :
    BaseLogger.log (BaseLogger.ctor cfgWarn .node) "t" .debug
        (.fn fun _ => .ok "expensive") none = .ok []
    ∧ invokesOf (BaseLogger.log (BaseLogger.ctor cfgWarn .node) "t" .error
        (.fn fun _ => .ok "expensive") none) = 1 :=
  ⟨claim_C6.1 (BaseLogger.ctor cfgWarn .node) "t" .debug (fun _ => .ok "expensive") none
      (by decide),
   (claim_C6.2 (BaseLogger.ctor cfgWarn .node) "t" .error (fun _ => .ok "expensive") none
      "expensive" (by decide) rfl).1⟩

/-- C7: filterSensitiveData coincides with the spec's recursive redaction contract —
same shape, every value under a key that case-insensitively contains a sensitive
substring replaced by "[REDACTED]", other values kept (recursively) — and it maps the
spec's example to the spec's expected output. -/
theorem claim_C7 :
    (∀ (v : JsVal) (ks : List String), filterSensitiveData v ks = redactSpec v ks)
    ∧ filterSensitiveData redactExample defaultSensitiveKeys = redactExpected :=
  ⟨filterSensitiveData_eq_redactSpec, rfl⟩

/-- C8 counterexample: a null value under the sensitive key "password" is redacted to
the string "[REDACTED]", not passed through unchanged. -/
theorem claim_C8_counterexample :
    filterSensitiveData (.obj (.cons "password" .null .nil)) defaultSensitiveKeys
      = .obj (.cons "password" (.str "[REDACTED]") .nil)
    ∧ JsVal.str "[REDACTED]" ≠ JsVal.null :=
  ⟨rfl, fun h => JsVal.noConfusion h⟩

/-- C8 amended: a null or undefined value passes through unchanged exactly when its
key does not match a sensitive substring; under a matching key it is redacted like any
other value, because the key test never looks at the value. -/
theorem claim_C8 :
    ∀ (ks : List String) (k : String) (v : JsVal) (rest : JsFields),
      v = .null ∨ v = .undef →
        (keyMatches k ks = false →
          filterFields (.cons k v rest) ks = .cons k v (filterFields rest ks))
        ∧ (keyMatches k ks = true →
          filterFields (.cons k v rest) ks
            = .cons k (.str "[REDACTED]") (filterFields rest ks)) := by
  intro ks k v rest hv
  constructor
  · intro hkm
    rcases hv with rfl | rfl <;> simp [filterFields, hkm, isObjLike]
  · intro hkm
    rcases hv with rfl | rfl <;> simp [filterFields, hkm]

/-- C8 witness: the amended rule applied at the non-matching key "safe" and the
matching key "password", both holding null. -/
theorem claim_C8_witness :
    filterFields (.cons "safe" JsVal.null .nil) defaultSensitiveKeys
      = .cons "safe" JsVal.null (filterFields .nil defaultSensitiveKeys)
    ∧ filterFields (.cons "password" JsVal.null .nil) defaultSensitiveKeys
      = .cons "password" (JsVal.str "[REDACTED]") (filterFields .nil defaultSensitiveKeys) :=
  ⟨(claim_C8 defaultSensitiveKeys "safe" .null .nil (Or.inl rfl)).1 rfl,
   (claim_C8 defaultSensitiveKeys "password" .null .nil (Or.inl rfl)).2 rfl⟩

/-- C9: formatting an entry without metadata in JSON mode serializes an object whose
keys are exactly timestamp, level (lowercase name), message and runtime — no metadata
key at all — shown generally through the built key list and concretely as the full
single-line JSON output. -/
theorem claim_C9 :
    (∀ (ts : String) (lvl : LogLevel) (msg : String) (rt : RuntimeName),
      (jsonEntryPairs ⟨ts, lvl, msg, none, rt⟩).map Prod.fst
        = ["timestamp", "level", "message", "runtime"])
    ∧ (∀ (ts : String) (lvl : LogLevel) (msg : String) (rt : RuntimeName),
      formatLogEntry ⟨ts, lvl, msg, none, rt⟩ .json
        = safeStringifyTree (JsVal.obj (fieldsOf (jsonEntryPairs ⟨ts, lvl, msg, none, rt⟩))))
    ∧ formatLogEntry ⟨"2024-01-01T12:00:00.000Z", .info, "User logged in", none, .node⟩ .json
      = "\x7b\"timestamp\":\"2024-01-01T12:00:00.000Z\",\"level\":\"info\",\"message\":\"User logged in\",\"runtime\":\"node\"\x7d" :=
  ⟨fun _ _ _ _ => rfl, fun _ _ _ _ => rfl, rfl⟩

/-- C10: a call at level SILENT passes the filter under every threshold (SILENT is the
maximum level), resolves the message, and hands writeLog a SILENT-level entry carrying
that message. -/
theorem claim_C10 :
    ∀ st : LoggerState,
      BaseLogger.shouldLog st .silent = true
      ∧ ∀ (now s : String) (md : Option (List (String × JsVal))),
          ∃ entry, BaseLogger.log st now .silent (.str s) md = .ok [.wrote entry]
            ∧ entry.level = .silent ∧ entry.message = s := by
  intro st
  have hsl : BaseLogger.shouldLog st .silent = true := by
    simp only [BaseLogger.shouldLog, decide_eq_true_eq]
    cases h : st.level <;> simp [LogLevel.toNat]
  refine ⟨hsl, ?_⟩
  intro now s md
  refine ⟨
    { timestamp := now, level := .silent, message := s,
      metadata := if (spreadMerge st.childMetadata (md.getD [])).length > 0
        then some (spreadMerge st.childMetadata (md.getD [])) else none,
      runtime := st.runtime }, ?_, rfl, rfl⟩
  simp [BaseLogger.log, hsl]

end Claims

end Logan
